import Mathlib

/-!
Verification of the banner-maker core (`final.py`): colour parsing,
grid planning, info-band compositing and the `merge_images` pipeline.

Modelling conventions (shallow embedding):
* Python strings are modelled as `List Char` (ASCII case folding and ASCII
  whitespace; the inputs of interest are ASCII).
* Python `int` is modelled as `Int`. Python floats are modelled as exact
  unnormalised rationals `PyQ` (every float literal and arithmetic step
  appearing in the colour pipeline is exact at these magnitudes);
  `PyQ.toRat` interprets them in `ℚ`, and `int(x)` truncation toward zero is
  `PyQ.trunc`.
* Fallible Python code (raising `ValueError`/`IndexError`) is modelled with
  `Option`/`Except` results.
* `float('inf')`/`'nan'` and exotic underscored numeric literals beyond the
  forms below are outside the model; in every branch of `parse_color_input`
  such inputs lead to the same final `none` result as in CPython (a failed
  range check falls through to `return None` exactly like a parse error), so
  the theorems below are unaffected.
-/

/-- Whitespace characters removed by Python `str.strip` (ASCII fragment:
space, tab, newline, carriage return, vertical tab, form feed). -/
def pyIsSpace (c : Char) : Bool :=
  c == ' ' || c == '\t' || c == '\n' || c == '\r' || c == Char.ofNat 11 || c == Char.ofNat 12

/-- Python `str.strip`: drop leading and trailing whitespace. -/
def pyStrip (l : List Char) : List Char :=
  ((l.dropWhile pyIsSpace).reverse.dropWhile pyIsSpace).reverse

/-- Python `str.lower` (ASCII). -/
def pyLower (l : List Char) : List Char :=
  l.map Char.toLower

/-- The normalisation `color_input.strip().lower()` performed at the top of
`parse_color_input` (final.py line 281). -/
def pyNormalize (l : List Char) : List Char :=
  pyLower (pyStrip l)

/-- Python `str.startswith` on character lists. -/
def pyStartsWith : List Char → List Char → Bool
  | [], _ => true
  | _ :: _, [] => false
  | p :: ps, c :: cs => p == c && pyStartsWith ps cs

/-- Python `str.endswith` for a single-character suffix. -/
def pyEndsWithChar (l : List Char) (c : Char) : Bool :=
  l.getLast? == some c

/-- Python `str.endswith` for a general suffix. -/
def pyEndsWithList (suf l : List Char) : Bool :=
  pyStartsWith suf.reverse l.reverse

/-- Python `str.split(',')`. -/
def splitOnComma : List Char → List (List Char)
  | [] => [[]]
  | c :: rest =>
    if c = ',' then [] :: splitOnComma rest
    else
      match splitOnComma rest with
      | [] => [[c]]
      | x :: xs => (c :: x) :: xs

/-- An exact unnormalised rational: the model of a Python float value.
All values produced by the embedding have a positive denominator. -/
structure PyQ where
  num : Int
  den : Nat
deriving DecidableEq

/-- Embed an integer literal. -/
def PyQ.ofInt (n : Int) : PyQ := ⟨n, 1⟩

/-- Division of a float by an integer constant (exact). -/
def PyQ.divNat (a : PyQ) (n : Nat) : PyQ := ⟨a.num, a.den * n⟩

/-- Multiplication of float values (exact). -/
def PyQ.mul (a b : PyQ) : PyQ := ⟨a.num * b.num, a.den * b.den⟩

/-- Subtraction of float values (exact). -/
def PyQ.sub (a b : PyQ) : PyQ := ⟨a.num * b.den - b.num * a.den, a.den * b.den⟩

/-- Negation. -/
def PyQ.neg (a : PyQ) : PyQ := ⟨-a.num, a.den⟩

/-- Scale by `10 ^ e` (a positive float exponent). -/
def PyQ.mulPow10 (a : PyQ) (e : Nat) : PyQ := ⟨a.num * 10 ^ e, a.den⟩

/-- Divide by `10 ^ e` (a negative float exponent). -/
def PyQ.divPow10 (a : PyQ) (e : Nat) : PyQ := ⟨a.num, a.den * 10 ^ e⟩

/-- Comparison of float values (valid for positive denominators, which all
embedded values have). -/
def PyQ.le (a b : PyQ) : Prop := a.num * (b.den : Int) ≤ b.num * (a.den : Int)

instance (a b : PyQ) : Decidable (PyQ.le a b) := Int.decLe _ _

/-- Python `int(x)` on a float value: truncation toward zero
(`Int.tdiv` is T-division, matching CPython). -/
def PyQ.trunc (a : PyQ) : Int := Int.tdiv a.num a.den

/-- Interpretation of a float value as a rational number. -/
def PyQ.toRat (a : PyQ) : ℚ := (a.num : ℚ) / (a.den : ℚ)

/-- Truncation toward zero on `ℚ`, the mathematical reading of Python
`int(float)`. -/
def ratTrunc (q : ℚ) : Int := if q < 0 then -⌊-q⌋ else ⌊q⌋

/-- Value of a hexadecimal digit (as accepted by Python `int(_, 16)`). -/
def hexVal (c : Char) : Option Nat :=
  if '0' ≤ c ∧ c ≤ '9' then some (c.toNat - 48)
  else if 'a' ≤ c ∧ c ≤ 'f' then some (c.toNat - 87)
  else if 'A' ≤ c ∧ c ≤ 'F' then some (c.toNat - 55)
  else none

/-- Value of a decimal digit. -/
def decVal (c : Char) : Option Nat :=
  if '0' ≤ c ∧ c ≤ '9' then some (c.toNat - 48) else none

/-- Continuation of a hexadecimal digit run (single underscores allowed
between digits, as in Python numeric literals). -/
def hexDigsGo : List Char → Nat → Option Nat
  | [], acc => some acc
  | '_' :: l, acc =>
    match l with
    | [] => none
    | c :: rest =>
      match hexVal c with
      | none => none
      | some d => hexDigsGo rest (16 * acc + d)
  | c :: rest, acc =>
    match hexVal c with
    | none => none
    | some d => hexDigsGo rest (16 * acc + d)

/-- A non-empty hexadecimal digit run. -/
def pyParseHexDigs : List Char → Option Nat
  | [] => none
  | c :: rest =>
    match hexVal c with
    | none => none
    | some d => hexDigsGo rest d

/-- Magnitude part of Python `int(_, 16)` (optional `0x`/`0X` prefix). -/
def pyIntHexMag : List Char → Option Nat
  | '0' :: 'x' :: rest => pyParseHexDigs rest
  | '0' :: 'X' :: rest => pyParseHexDigs rest
  | rest => pyParseHexDigs rest

/-- Python `int(s, 16)`: surrounding whitespace, optional sign, optional
prefix, hexadecimal digits; `none` models the raised `ValueError`. -/
def pyIntHex (s : List Char) : Option Int :=
  match pyStrip s with
  | '+' :: rest => (pyIntHexMag rest).map Int.ofNat
  | '-' :: rest => (pyIntHexMag rest).map (fun n => -(n : Int))
  | rest => (pyIntHexMag rest).map Int.ofNat

/-- Continuation of a decimal digit run (underscores between digits). -/
def decDigsGo : List Char → Nat → Option Nat
  | [], acc => some acc
  | '_' :: l, acc =>
    match l with
    | [] => none
    | c :: rest =>
      match decVal c with
      | none => none
      | some d => decDigsGo rest (10 * acc + d)
  | c :: rest, acc =>
    match decVal c with
    | none => none
    | some d => decDigsGo rest (10 * acc + d)

/-- A non-empty decimal digit run. -/
def pyParseDecDigs : List Char → Option Nat
  | [] => none
  | c :: rest =>
    match decVal c with
    | none => none
    | some d => decDigsGo rest d

/-- Python `int(s)` (base 10): whitespace, optional sign, decimal digits. -/
def pyIntDec (s : List Char) : Option Int :=
  match pyStrip s with
  | '+' :: rest => (pyParseDecDigs rest).map Int.ofNat
  | '-' :: rest => (pyParseDecDigs rest).map (fun n => -(n : Int))
  | rest => (pyParseDecDigs rest).map Int.ofNat

/-- Maximal-munch decimal digit run: value, number of digits consumed, rest. -/
def munchDecGo : List Char → Nat → Nat → Nat × Nat × List Char
  | [], acc, n => (acc, n, [])
  | '_' :: l, acc, n =>
    match l with
    | [] => (acc, n, ['_'])
    | c :: rest =>
      match decVal c with
      | none => (acc, n, '_' :: c :: rest)
      | some d => munchDecGo rest (10 * acc + d) (n + 1)
  | c :: rest, acc, n =>
    match decVal c with
    | none => (acc, n, c :: rest)
    | some d => munchDecGo rest (10 * acc + d) (n + 1)

/-- Maximal-munch decimal digit run requiring at least one digit. -/
def munchDec : List Char → Option (Nat × Nat × List Char)
  | [] => none
  | c :: rest =>
    match decVal c with
    | none => none
    | some d => some (munchDecGo rest d 1)

/-- Exponent magnitude of a Python float literal; the remaining input must be
exhausted. -/
def pyFloatExpMag (l : List Char) (v : PyQ) (neg : Bool) : Option PyQ :=
  match munchDec l with
  | none => none
  | some (e, _, rest) =>
    if rest = [] then some (if neg then v.divPow10 e else v.mulPow10 e) else none

/-- Optional exponent part of a Python float literal. -/
def pyFloatExp : List Char → PyQ → Option PyQ
  | [], v => some v
  | c :: rest, v =>
    if c = 'e' ∨ c = 'E' then
      match rest with
      | '+' :: r2 => pyFloatExpMag r2 v false
      | '-' :: r2 => pyFloatExpMag r2 v true
      | r2 => pyFloatExpMag r2 v false
    else none

/-- Body of a Python float literal (after sign): `digits [. digits] [exp]` or
`. digits [exp]`. -/
def pyFloatBody (l : List Char) : Option PyQ :=
  match munchDec l with
  | some (ip, _, r1) =>
    match r1 with
    | '.' :: r2 =>
      match munchDec r2 with
      | some (fp, fn, r3) => pyFloatExp r3 ⟨(ip : Int) * 10 ^ fn + (fp : Int), 10 ^ fn⟩
      | none => pyFloatExp r2 (PyQ.ofInt ip)
    | _ => pyFloatExp r1 (PyQ.ofInt ip)
  | none =>
    match l with
    | '.' :: r2 =>
      match munchDec r2 with
      | some (fp, fn, r3) => pyFloatExp r3 ⟨(fp : Int), 10 ^ fn⟩
      | none => none
    | _ => none

/-- Python `float(s)` over exact rationals; `none` models `ValueError`. -/
def pyFloat (s : List Char) : Option PyQ :=
  match pyStrip s with
  | '+' :: rest => pyFloatBody rest
  | '-' :: rest => (pyFloatBody rest).map PyQ.neg
  | rest => pyFloatBody rest

/-- Characters of the literal `'0123456789abcdef'` used by the hex check in
`parse_color_input` (final.py line 285). -/
def isHexLowerChar (c : Char) : Bool :=
  ('0' ≤ c && c ≤ '9') || ('a' ≤ c && c ≤ 'f')

/-- Embedding of `hex_to_rgb` (final.py lines 235-246): strip leading `#`,
decode the three 2-character slices at positions 0-6 with `int(_, 16)`.
There is no length check, so longer inputs simply have their tail ignored.
`none` models the `ValueError` raised on a failing slice. -/
def hex_to_rgb (hex_color : List Char) : Option (Int × Int × Int) := do
  let h := hex_color.dropWhile (fun c => c = '#')
  let r ← pyIntHex (h.take 2)
  let g ← pyIntHex ((h.drop 2).take 2)
  let b ← pyIntHex ((h.drop 4).take 2)
  pure (r, g, b)

/-- Embedding of `cmyk_to_rgb` (final.py lines 249-263): scale to fractions
and convert via `255 * (1 - c) * (1 - k)` per channel, truncating toward
zero. -/
def cmyk_to_rgb (c m y k : PyQ) : Int × Int × Int :=
  let c' := c.divNat 100
  let m' := m.divNat 100
  let y' := y.divNat 100
  let k' := k.divNat 100
  let one := PyQ.ofInt 1
  (PyQ.trunc (((PyQ.ofInt 255).mul (one.sub c')).mul (one.sub k')),
   PyQ.trunc (((PyQ.ofInt 255).mul (one.sub m')).mul (one.sub k')),
   PyQ.trunc (((PyQ.ofInt 255).mul (one.sub y')).mul (one.sub k')))

/-- Inner block of the two RGB branches of `parse_color_input`
(final.py lines 291-295 and 299-303): exactly three integer tokens, each in
`[0, 255]`; any parse failure or wrong token count yields `none`. -/
def rgbFromVals (vals : List (List Char)) : Option (Int × Int × Int) :=
  match vals with
  | [va, vb, vc] =>
    match pyIntDec (pyStrip va), pyIntDec (pyStrip vb), pyIntDec (pyStrip vc) with
    | some r, some g, some b =>
      if 0 ≤ r ∧ r ≤ 255 ∧ 0 ≤ g ∧ g ≤ 255 ∧ 0 ≤ b ∧ b ≤ 255 then some (r, g, b)
      else none
    | _, _, _ => none
  | _ => none

/-- Inner block of the two CMYK branches of `parse_color_input`
(final.py lines 308-312 and 316-320): exactly four float tokens, each in
`[0, 100]`, converted with `cmyk_to_rgb`. -/
def cmykFromVals (vals : List (List Char)) : Option (Int × Int × Int) :=
  match vals with
  | [va, vb, vc, vd] =>
    match pyFloat (pyStrip va), pyFloat (pyStrip vb), pyFloat (pyStrip vc),
        pyFloat (pyStrip vd) with
    | some c, some m, some y, some k =>
      if PyQ.le (PyQ.ofInt 0) c ∧ PyQ.le c (PyQ.ofInt 100) ∧
          PyQ.le (PyQ.ofInt 0) m ∧ PyQ.le m (PyQ.ofInt 100) ∧
          PyQ.le (PyQ.ofInt 0) y ∧ PyQ.le y (PyQ.ofInt 100) ∧
          PyQ.le (PyQ.ofInt 0) k ∧ PyQ.le k (PyQ.ofInt 100) then
        some (cmyk_to_rgb c m y k)
      else none
    | _, _, _, _ => none
  | _ => none

/-- Embedding of `parse_color_input` (final.py lines 266-325): the `elif`
chain over the normalised input; a branch whose inner checks fail falls
through to the final `return None`, and exceptions are caught and also
yield `none`. -/
def parse_color_input (color_input : List Char) : Option (Int × Int × Int) :=
  let t := pyNormalize color_input
  if pyStartsWith ['#'] t = true ∨ (t.length = 6 ∧ ∀ c ∈ t, isHexLowerChar c = true) then
    hex_to_rgb t
  else if pyStartsWith ['r', 'g', 'b', '('] t = true ∧ pyEndsWithChar t ')' = true then
    rgbFromVals (splitOnComma ((t.drop 4).dropLast))
  else if (',' ∈ t) ∧ ¬ pyStartsWith ['c', 'm', 'y', 'k'] t = true then
    rgbFromVals (splitOnComma t)
  else if pyStartsWith ['c', 'm', 'y', 'k', '('] t = true ∧ pyEndsWithChar t ')' = true then
    cmykFromVals (splitOnComma ((t.drop 5).dropLast))
  else if ',' ∈ t then
    cmykFromVals (splitOnComma t)
  else none

/-- Exact-real model of `math.ceil(math.sqrt n)` (final.py line 564; the
float square root is exact at these magnitudes). -/
def ceilSqrt (n : Nat) : Nat :=
  if Nat.sqrt n * Nat.sqrt n = n then Nat.sqrt n else Nat.sqrt n + 1

/-- Column count of the grid (final.py lines 557-564). -/
def gridColumns (total_images : Nat) : Nat :=
  if total_images ≤ 4 then 2
  else if total_images ≤ 9 then 3
  else if total_images ≤ 16 then 4
  else ceilSqrt total_images

/-- Row count `math.ceil(total_images / columns)` (final.py line 566). -/
def gridRows (total_images : Nat) : Nat :=
  (total_images + gridColumns total_images - 1) / gridColumns total_images

/-- Global constant `border_spacing = 10` (final.py line 634). -/
def border_spacing : Int := 10

/-- Global constant `image_spacing = 10` (final.py line 635). -/
def image_spacing : Int := 10

/-- The `usable_size` of the canvas (final.py line 569). -/
def usableSize (image_size : Int) : Int :=
  image_size - 2 * border_spacing

/-- Cell width (final.py line 570; Python `//` is floor division). -/
def imageWidthOf (total : Nat) (image_size : Int) : Int :=
  Int.fdiv (usableSize image_size - ((gridColumns total : Int) - 1) * image_spacing)
    (gridColumns total)

/-- Cell height before the band adjustment (final.py line 571). -/
def imageHeightNoBand (total : Nat) (image_size : Int) : Int :=
  Int.fdiv (usableSize image_size - ((gridRows total : Int) - 1) * image_spacing)
    (gridRows total)

/-- The reserved `band_area = int(image_size * 0.20)` (final.py line 575). -/
def bandArea (image_size : Int) : Int :=
  Int.tdiv (image_size * 20) 100

/-- The `content_height` left over by the band (final.py line 576). -/
def contentHeight (image_size : Int) : Int :=
  image_size - bandArea image_size

/-- Band-aware candidate cell height (final.py line 577). -/
def imageHeightBand (total : Nat) (image_size : Int) : Int :=
  Int.fdiv (contentHeight image_size - 2 * border_spacing -
      ((gridRows total : Int) - 1) * image_spacing)
    (gridRows total)

/-- Cell height actually used (final.py lines 571-577): the band-aware
minimum when `include_band` is set. -/
def imageHeightOf (total : Nat) (image_size : Int) (include_band : Bool) : Int :=
  if include_band then
    min (imageHeightNoBand total image_size) (imageHeightBand total image_size)
  else imageHeightNoBand total image_size

/-- A wrapped CMYK input  `cmyk(a,b,c,d)`  assembled from four token
strings. -/
def mkCmyk (a b c d : List Char) : List Char :=
  ['c', 'm', 'y', 'k', '('] ++ a ++ ',' :: b ++ ',' :: c ++ ',' :: d ++ [')']

/-- An RGBA pixel (channel values as produced by the imaging library). -/
abbrev Pix := Nat × Nat × Nat × Nat

/-- An in-memory raster image: dimensions plus a pixel map (queries outside
the dimensions are never relevant to the theorems below). -/
structure Img where
  width : Nat
  height : Nat
  pix : Nat → Nat → Pix

/-- `Image.new('RGBA', (w, h))`: a fully transparent canvas. -/
def newImg (w h : Nat) : Img :=
  { width := w, height := h, pix := fun _ _ => (0, 0, 0, 0) }

/-- The `MULDIV255` fixed-point blend primitive of the imaging library:
`round(a * b / 255)` computed as `((t >> 8) + t) >> 8` with `t = a*b+128`. -/
def muldiv255 (a b : Nat) : Nat :=
  ((a * b + 128) / 256 + (a * b + 128)) / 256

/-- Per-channel blend of a source pixel over a destination pixel using the
source's alpha as mask, as done by `paste` with an RGBA mask. -/
def blendPix (d s : Pix) : Pix :=
  (muldiv255 d.1 (255 - s.2.2.2) + muldiv255 s.1 s.2.2.2,
   muldiv255 d.2.1 (255 - s.2.2.2) + muldiv255 s.2.1 s.2.2.2,
   muldiv255 d.2.2.1 (255 - s.2.2.2) + muldiv255 s.2.2.1 s.2.2.2,
   muldiv255 d.2.2.2 (255 - s.2.2.2) + muldiv255 s.2.2.2 s.2.2.2)

/-- `dst.paste(src, (left, top))` without a mask: the source rectangle
replaces the destination content (clipped to the destination). -/
def pasteAt (dst src : Img) (left top : Int) : Img :=
  { dst with
    pix := fun x y =>
      if left ≤ (x : Int) ∧ (x : Int) < left + src.width ∧
          top ≤ (y : Int) ∧ (y : Int) < top + src.height then
        src.pix ((x : Int) - left).toNat ((y : Int) - top).toNat
      else dst.pix x y }

/-- `dst.paste(src, (left, top), src)`: paste using the source itself as the
alpha mask, blending per pixel. -/
def pasteMaskAt (dst src : Img) (left top : Int) : Img :=
  { dst with
    pix := fun x y =>
      if left ≤ (x : Int) ∧ (x : Int) < left + src.width ∧
          top ≤ (y : Int) ∧ (y : Int) < top + src.height then
        blendPix (dst.pix x y) (src.pix ((x : Int) - left).toNat ((y : Int) - top).toNat)
      else dst.pix x y }

/-- `image.crop((left, top, right, bottom))`. -/
def cropBox (img : Img) (left top right bottom : Nat) : Img :=
  { width := right - left, height := bottom - top,
    pix := fun x y => img.pix (x + left) (y + top) }

/-- Straight-alpha `over` compositing of one pixel over another
(`Image.alpha_composite`; the library's exact fixed-point rounding is
approximated by rational truncation, which no claim below inspects). -/
def alphaCompositePix (b s : Pix) : Pix :=
  let outA := s.2.2.2 * 255 + b.2.2.2 * (255 - s.2.2.2)
  (if outA = 0 then 0 else (s.1 * s.2.2.2 * 255 + b.1 * b.2.2.2 * (255 - s.2.2.2)) / outA,
   if outA = 0 then 0 else (s.2.1 * s.2.2.2 * 255 + b.2.1 * b.2.2.2 * (255 - s.2.2.2)) / outA,
   if outA = 0 then 0 else
     (s.2.2.1 * s.2.2.2 * 255 + b.2.2.1 * b.2.2.2 * (255 - s.2.2.2)) / outA,
   outA / 255)

/-- `Image.alpha_composite(bottom, top)` (images of equal size). -/
def alphaComposite (bot top : Img) : Img :=
  { width := bot.width, height := bot.height,
    pix := fun x y => alphaCompositePix (bot.pix x y) (top.pix x y) }

/-- `image.resize((w, h))`: dimensions exact, sampling by nearest coordinate
(the library's resampling kernel is abstracted; no claim inspects resampled
pixel values). -/
def resizeImg (img : Img) (w h : Nat) : Img :=
  { width := w, height := h,
    pix := fun x y =>
      img.pix (if w = 0 then 0 else x * img.width / w)
        (if h = 0 then 0 else y * img.height / h) }

/-- `img.thumbnail((maxW, maxH), LANCZOS)` (final.py line 588): an
aspect-preserving downscale fit that never upscales — a library call, so the
exact rounding of the target size and the resampling kernel are abstracted;
no claim below depends on them. -/
def thumbFit (img : Img) (maxW maxH : Int) : Img :=
  let mw := maxW.toNat
  let mh := maxH.toNat
  if img.width ≤ mw ∧ img.height ≤ mh then img
  else
    let w' := min mw (if img.height = 0 then mw else max 1 (img.width * mh / img.height))
    let h' := min mh (if img.width = 0 then mh else max 1 (img.height * mw / img.width))
    { width := w', height := h',
      pix := fun x y =>
        img.pix (if w' = 0 then 0 else x * img.width / w')
          (if h' = 0 then 0 else y * img.height / h') }

/-- Embedding of `add_info_band` (final.py lines 480-533).  The rounded
rectangle and the text are drawn by imaging-library calls on a transparent
band layer of size `(width, int(height * 0.20))`; that drawn layer is
abstracted as the pixel painter `bandPix`.  The composition steps
(lines 526-531) are exact: a fresh transparent canvas, the image rows above
`position = (height - band_height) // 2` pasted at the top, the band layer
mask-pasted at `position`, and the crop of the image from `position` to the
bottom pasted at `position + band_height`. -/
def add_info_band (image : Img) (bandPix : Nat → Nat → Pix) : Img :=
  let width := image.width
  let height := image.height
  let band_height := height * 20 / 100
  let band : Img := { width := width, height := band_height, pix := bandPix }
  let position := (height - band_height) / 2
  let s1 := pasteAt (newImg width height) (cropBox image 0 0 width position) 0 0
  let s2 := pasteMaskAt s1 band 0 (position : Int)
  pasteAt s2 (cropBox image 0 position width height) 0
    ((position : Int) + (band_height : Int))

/-- Failure conditions of the compose path: the guarded empty-input early
return (final.py lines 549-551) and the `IndexError` that `random.choice`
raises on an empty sequence (line 596). -/
inductive PyErr
  | emptyInput
  | indexError
deriving DecidableEq

/-- Result of a successful `merge_images` run: the `placed_images` pool, the
grid placements `(image, x + offset_x, y + offset_y)` in loop order, the
final composited image, and the path written by `save`. -/
structure MergeOutput where
  pool : List Img
  placements : List (Img × Int × Int)
  image : Img
  savePath : List Char

/-- Placeholder image for total indexing functions. -/
def defaultImg : Img := ⟨0, 0, fun _ _ => (0, 0, 0, 0)⟩

/-- The image-loading loop (final.py lines 584-592): each path is decoded
(`decode` is the filesystem/decoder oracle standing for `Image.open` plus
`check_image_mode`), fitted with `thumbnail`, and appended; failing paths
are logged and skipped. -/
def loadImages (decode : List Char → Option Img) (paths : List (List Char))
    (image_width image_height : Int) : List Img :=
  paths.filterMap (fun p => (decode p).map (fun img => thumbFit img image_width image_height))

/-- The duplicate-fill loop (final.py lines 594-596): while cells remain,
append a copy of `random.choice(placed_images)` (`rand` is the random
oracle; the index taken is `rand len % len`, and `.copy()` of an in-memory
image is the image itself).  On an empty pool `random.choice` raises
`IndexError`. -/
def padPool (rand : Nat → Nat) : Nat → List Img → Except PyErr (List Img)
  | 0, pool => Except.ok pool
  | n + 1, pool =>
    if pool.isEmpty then Except.error PyErr.indexError
    else padPool rand n (pool ++ [pool.getD (rand pool.length % pool.length) defaultImg])

/-- The placement loop (final.py lines 599-610): for index `idx`, column
`idx % columns` and row `idx // columns`, the paste position is the cell
origin plus the centring offset `(cell - img) // 2`. -/
def placeFrom (columns : Nat) (image_width image_height : Int) (idx : Nat) :
    List Img → List (Img × Int × Int)
  | [] => []
  | img :: rest =>
    (img,
     border_spacing + ((idx % columns : Nat) : Int) * (image_width + image_spacing) +
       Int.fdiv (image_width - (img.width : Int)) 2,
     border_spacing + ((idx / columns : Nat) : Int) * (image_height + image_spacing) +
       Int.fdiv (image_height - (img.height : Int)) 2) ::
      placeFrom columns image_width image_height (idx + 1) rest

/-- Mask-paste every placed image onto the transparent square canvas
(final.py lines 580 and 610). -/
def gridCanvas (image_size : Nat) (placements : List (Img × Int × Int)) : Img :=
  placements.foldl (fun acc p => pasteMaskAt acc p.1 p.2.1 p.2.2) (newImg image_size image_size)

/-- Embedding of `merge_images` (final.py lines 536-624).  `decode` is the
image-decoding oracle, `rand` the random oracle for the duplicate fill, and
`bandDraw` the abstracted band-layer painter (taking the png count and the
theme colour, as `add_info_band` does).  The early `return` on an empty path
list is the classified `emptyInput` result (no file is written); the
band is only rendered when `include_band and theme_color` holds, while the
band area is already reserved in `image_height` whenever `include_band`
holds; the final image is saved as `final_output.png` in the output
folder. -/
def merge_images (decode : List Char → Option Img) (rand : Nat → Nat)
    (bandDraw : Nat → Int × Int × Int → Nat → Nat → Pix)
    (input_paths : List (List Char)) (image_size : Nat)
    (background watermark : Img) (output_folder : List Char)
    (theme_color : Option (Int × Int × Int)) (include_band : Bool) :
    Except PyErr MergeOutput :=
  if input_paths.isEmpty then Except.error PyErr.emptyInput
  else
    let png_count :=
      (input_paths.filter (fun p => pyEndsWithList ['.', 'p', 'n', 'g'] (pyLower p))).length
    let total := input_paths.length
    let columns := gridColumns total
    let rows := gridRows total
    let image_width := imageWidthOf total (image_size : Int)
    let image_height := imageHeightOf total (image_size : Int) include_band
    let loaded := loadImages decode input_paths image_width image_height
    match padPool rand (rows * columns - loaded.length) loaded with
    | Except.error e => Except.error e
    | Except.ok pool =>
      let placements := placeFrom columns image_width image_height 0 pool
      let canvas := gridCanvas image_size placements
      let composed := alphaComposite (resizeImg background image_size image_size) canvas
      let banded :=
        if include_band then
          match theme_color with
          | some col => add_info_band composed (bandDraw png_count col)
          | none => composed
        else composed
      let final := alphaComposite banded (resizeImg watermark image_size image_size)
      Except.ok
        { pool := pool, placements := placements, image := final,
          savePath := output_folder ++
            ['/', 'f', 'i', 'n', 'a', 'l', '_', 'o', 'u', 't', 'p', 'u', 't',
             '.', 'p', 'n', 'g'] }

/-- A 1-by-1 fully transparent test image. -/
def blankImg : Img := ⟨1, 1, fun _ _ => (0, 0, 0, 0)⟩

/-- A 1-by-10 test image whose rows are pairwise distinct. -/
def bandTestImg : Img := { width := 1, height := 10, pix := fun _ y => (y, 0, 0, 255) }

/-- A constant opaque band layer for tests. -/
def bandTestPix : Nat → Nat → Pix := fun _ _ => (7, 7, 7, 255)

/-- A 1-by-1 opaque test image. -/
def unitImg : Img := ⟨1, 1, fun _ _ => (0, 0, 0, 255)⟩

/-- A decoder oracle for which every path decodes. -/
def decodeAll : List Char → Option Img := fun _ => some unitImg

/-- A decoder oracle for which every path fails to decode. -/
def decodeNone : List Char → Option Img := fun _ => none

/-- A random oracle that always picks index 0. -/
def randZero : Nat → Nat := fun _ => 0

/-- A different random oracle. -/
def randShift : Nat → Nat := fun n => n + 7

/-- A trivial band painter. -/
def bandDrawZero : Nat → Int × Int × Int → Nat → Nat → Pix := fun _ _ _ _ => (0, 0, 0, 0)


theorem ceilSqrt_sq_ge (n : Nat) : n ≤ ceilSqrt n * ceilSqrt n := by
  unfold ceilSqrt
  split
  · omega
  · have h := Nat.lt_succ_sqrt n
    rw [Nat.succ_eq_add_one] at h
    exact Nat.le_of_lt h

theorem ceilSqrt_pos (n : Nat) (hn : 0 < n) : 0 < ceilSqrt n := by
  unfold ceilSqrt
  split
  · rename_i h
    rcases Nat.eq_zero_or_pos (Nat.sqrt n) with h0 | h1
    · rw [h0] at h
      omega
    · exact h1
  · omega

theorem ceilSqrt_pred_sq_lt (n : Nat) (hn : 0 < n) :
    (ceilSqrt n - 1) * (ceilSqrt n - 1) < n := by
  have hle := Nat.sqrt_le n
  unfold ceilSqrt
  split
  · rename_i h
    have hs : 0 < Nat.sqrt n := by
      rcases Nat.eq_zero_or_pos (Nat.sqrt n) with h0 | h1
      · rw [h0] at h
        omega
      · exact h1
    have h1 : Nat.sqrt n - 1 < Nat.sqrt n := by omega
    calc (Nat.sqrt n - 1) * (Nat.sqrt n - 1)
        ≤ (Nat.sqrt n - 1) * Nat.sqrt n := Nat.mul_le_mul_left _ (by omega)
      _ < Nat.sqrt n * Nat.sqrt n := Nat.mul_lt_mul_of_lt_of_le h1 (Nat.le_refl _) hs
      _ = n := h
  · rename_i h
    simpa using Nat.lt_of_le_of_ne hle h

theorem ceilDiv_spec (n c : Nat) (hn : 0 < n) (hc : 0 < c) :
    n ≤ c * ((n + c - 1) / c) ∧ c * ((n + c - 1) / c - 1) < n := by
  have hmod := Nat.div_add_mod (n + c - 1) c
  have hlt : (n + c - 1) % c < c := Nat.mod_lt _ hc
  set e := (n + c - 1) / c with he
  set r := (n + c - 1) % c with hr
  have hp : 0 < c * e := by
    rcases Nat.eq_zero_or_pos e with h0 | h1
    · rw [h0] at hmod
      simp at hmod
      omega
    · exact Nat.mul_pos hc h1
  have he1 : 1 ≤ e := by
    rcases Nat.eq_zero_or_pos e with h0 | h1
    · rw [h0] at hp
      simp at hp
    · exact h1
  have hsub : c * (e - 1) + c = c * e := by
    have hee : e - 1 + 1 = e := by omega
    calc c * (e - 1) + c = c * (e - 1 + 1) := by ring
      _ = c * e := by rw [hee]
  omega

theorem gridColumns_pos (n : Nat) : 0 < gridColumns n := by
  unfold gridColumns
  split
  · omega
  split
  · omega
  split
  · omega
  rename_i h1 h2 h3
  exact ceilSqrt_pos n (by omega)

/-- C1: for every positive image count `n`, the grid plan of `merge_images`
chooses 2 columns when `n ≤ 4`, 3 when `5 ≤ n ≤ 9`, 4 when `10 ≤ n ≤ 16`, and
the ceiling of the square root when `n > 16` (characterised as the least `m`
with `n ≤ m * m`); rows are always the ceiling of `n / columns`
(characterised by `columns * (rows - 1) < n ≤ columns * rows`); in
particular `n = 1` gives `(2, 1)`, `n = 4` gives `(2, 2)`, `n = 9` gives
`(3, 3)` and `n = 10` gives `(4, 3)`. -/
theorem C1_grid_plan (n : Nat) (hn : 0 < n) :
    (n ≤ 4 → gridColumns n = 2) ∧
    (5 ≤ n → n ≤ 9 → gridColumns n = 3) ∧
    (10 ≤ n → n ≤ 16 → gridColumns n = 4) ∧
    (17 ≤ n → n ≤ gridColumns n * gridColumns n ∧
      (gridColumns n - 1) * (gridColumns n - 1) < n) ∧
    (n ≤ gridColumns n * gridRows n ∧ gridColumns n * (gridRows n - 1) < n) ∧
    (n = 1 → gridColumns n = 2 ∧ gridRows n = 1) ∧
    (n = 4 → gridColumns n = 2 ∧ gridRows n = 2) ∧
    (n = 9 → gridColumns n = 3 ∧ gridRows n = 3) ∧
    (n = 10 → gridColumns n = 4 ∧ gridRows n = 3) := by
  refine ⟨?_, ?_, ?_, ?_, ?_, ?_, ?_, ?_, ?_⟩
  · intro h
    unfold gridColumns
    rw [if_pos h]
  · intro h5 h9
    unfold gridColumns
    rw [if_neg (by omega), if_pos h9]
  · intro h10 h16
    unfold gridColumns
    rw [if_neg (by omega), if_neg (by omega), if_pos h16]
  · intro h17
    have hc : gridColumns n = ceilSqrt n := by
      unfold gridColumns
      rw [if_neg (by omega), if_neg (by omega), if_neg (by omega)]
    rw [hc]
    exact ⟨ceilSqrt_sq_ge n, ceilSqrt_pred_sq_lt n hn⟩
  · exact ceilDiv_spec n (gridColumns n) hn (gridColumns_pos n)
  · rintro rfl
    exact ⟨by decide, by decide⟩
  · rintro rfl
    exact ⟨by decide, by decide⟩
  · rintro rfl
    exact ⟨by decide, by decide⟩
  · rintro rfl
    exact ⟨by decide, by decide⟩

/-- Witness for C1 at the concrete count 10. -/
theorem C1_grid_plan_witness : gridColumns 10 = 4 ∧ gridRows 10 = 3 :=
  (C1_grid_plan 10 (by decide)).2.2.2.2.2.2.2.2 rfl

theorem splitOnComma_no_comma (a : List Char) (h : ',' ∉ a) : splitOnComma a = [a] := by
  induction a with
  | nil => rfl
  | cons c rest ih =>
    have hc : ¬ c = ',' := by
      intro hh
      exact h (by rw [hh]; exact List.mem_cons_self _ _)
    have hrest : ',' ∉ rest := fun hm => h (List.mem_cons_of_mem _ hm)
    simp only [splitOnComma]
    rw [if_neg hc, ih hrest]

theorem splitOnComma_append (a rest : List Char) (h : ',' ∉ a) :
    splitOnComma (a ++ ',' :: rest) = a :: splitOnComma rest := by
  induction a with
  | nil => simp [splitOnComma]
  | cons c a' ih =>
    have hc : ¬ c = ',' := by
      intro hh
      exact h (by rw [hh]; exact List.mem_cons_self _ _)
    have ha' : ',' ∉ a' := fun hm => h (List.mem_cons_of_mem _ hm)
    simp only [List.cons_append, splitOnComma, List.append_eq]
    rw [if_neg hc, ih ha']

theorem pyStrip_sandwich (x y : Char) (m : List Char)
    (hx : pyIsSpace x = false) (hy : pyIsSpace y = false) :
    pyStrip (x :: (m ++ [y])) = x :: (m ++ [y]) := by
  unfold pyStrip
  rw [List.dropWhile_cons_of_neg (by simp [hx])]
  have h1 : (x :: (m ++ [y])).reverse = y :: (m.reverse ++ [x]) := by simp
  rw [h1, List.dropWhile_cons_of_neg (by simp [hy])]
  simp

theorem mkCmyk_eq_sandwich (a b c d : List Char) :
    mkCmyk a b c d =
      'c' :: (('m' :: 'y' :: 'k' :: '(' :: (a ++ ',' :: b ++ ',' :: c ++ ',' :: d)) ++ [')']) := by
  simp [mkCmyk]

theorem mkCmyk_concat (a b c d : List Char) :
    mkCmyk a b c d =
      (['c', 'm', 'y', 'k', '('] ++ a ++ ',' :: b ++ ',' :: c ++ ',' :: d) ++ [')'] := by
  simp [mkCmyk]

theorem pyStrip_mkCmyk (a b c d : List Char) :
    pyStrip (mkCmyk a b c d) = mkCmyk a b c d := by
  rw [mkCmyk_eq_sandwich]
  exact pyStrip_sandwich 'c' ')' _ (by decide) (by decide)

theorem pyLower_mkCmyk (a b c d : List Char) :
    pyLower (mkCmyk a b c d) = mkCmyk (pyLower a) (pyLower b) (pyLower c) (pyLower d) := by
  simp [mkCmyk, pyLower, (by decide : 'c'.toLower = 'c'), (by decide : 'm'.toLower = 'm'),
    (by decide : 'y'.toLower = 'y'), (by decide : 'k'.toLower = 'k'),
    (by decide : '('.toLower = '('), (by decide : ','.toLower = ','),
    (by decide : ')'.toLower = ')')]

theorem pyNormalize_mkCmyk (a b c d : List Char) :
    pyNormalize (mkCmyk a b c d) = mkCmyk (pyLower a) (pyLower b) (pyLower c) (pyLower d) := by
  unfold pyNormalize
  rw [pyStrip_mkCmyk, pyLower_mkCmyk]

theorem mkCmyk_not_hash (a b c d : List Char) :
    pyStartsWith ['#'] (mkCmyk a b c d) = false := by
  simp [mkCmyk, pyStartsWith, (by decide : ('#' == 'c') = false)]

theorem mkCmyk_not_rgb (a b c d : List Char) :
    pyStartsWith ['r', 'g', 'b', '('] (mkCmyk a b c d) = false := by
  simp [mkCmyk, pyStartsWith, (by decide : ('r' == 'c') = false)]

theorem mkCmyk_starts_cmyk (a b c d : List Char) :
    pyStartsWith ['c', 'm', 'y', 'k'] (mkCmyk a b c d) = true := by
  simp [mkCmyk, pyStartsWith]

theorem mkCmyk_starts_cmykOpen (a b c d : List Char) :
    pyStartsWith ['c', 'm', 'y', 'k', '('] (mkCmyk a b c d) = true := by
  simp [mkCmyk, pyStartsWith]

theorem mkCmyk_ends_paren (a b c d : List Char) :
    pyEndsWithChar (mkCmyk a b c d) ')' = true := by
  rw [mkCmyk_concat]
  unfold pyEndsWithChar
  rw [List.getLast?_concat]
  decide

theorem mkCmyk_mem_paren (a b c d : List Char) : '(' ∈ mkCmyk a b c d := by
  simp [mkCmyk]

theorem mkCmyk_drop5 (a b c d : List Char) :
    (mkCmyk a b c d).drop 5 = a ++ ',' :: b ++ ',' :: c ++ ',' :: d ++ [')'] := by
  simp [mkCmyk]

theorem mkCmyk_body_dropLast (a b c d : List Char) :
    (a ++ ',' :: b ++ ',' :: c ++ ',' :: d ++ [')']).dropLast =
      a ++ ',' :: b ++ ',' :: c ++ ',' :: d := by
  have h : a ++ ',' :: b ++ ',' :: c ++ ',' :: d ++ [')'] =
      (a ++ ',' :: b ++ ',' :: c ++ ',' :: d) ++ [')'] := by simp
  rw [h, List.dropLast_concat]

theorem mkCmyk_split (a b c d : List Char) (ha : ',' ∉ a) (hb : ',' ∉ b) (hc : ',' ∉ c)
    (hd : ',' ∉ d) :
    splitOnComma (a ++ ',' :: b ++ ',' :: c ++ ',' :: d) = [a, b, c, d] := by
  simp only [List.cons_append, List.append_assoc]
  rw [splitOnComma_append a _ ha, splitOnComma_append b _ hb, splitOnComma_append c _ hc,
    splitOnComma_no_comma d hd]

theorem PyQ.trunc_toRat (a : PyQ) (h : 0 < a.den) : a.trunc = ratTrunc a.toRat := by
  unfold PyQ.trunc ratTrunc PyQ.toRat
  have hden : (0 : ℚ) < (a.den : ℚ) := by
    exact_mod_cast h
  rcases le_or_lt 0 a.num with hn | hn
  · rw [if_neg (not_lt.mpr (div_nonneg (by exact_mod_cast hn) (le_of_lt hden)))]
    rw [Rat.floor_intCast_div_natCast]
    exact Int.tdiv_eq_ediv hn (by positivity)
  · rw [if_pos (div_neg_of_neg_of_pos (by exact_mod_cast hn) hden)]
    have hneg : -((a.num : ℚ) / (a.den : ℚ)) = ((-a.num : Int) : ℚ) / (a.den : ℚ) := by
      push_cast
      ring
    rw [hneg, Rat.floor_intCast_div_natCast]
    have h1 : (-a.num).tdiv a.den = -(a.num.tdiv a.den) := Int.neg_tdiv _ _
    have h2 : (-a.num).tdiv a.den = -a.num / (a.den : Int) :=
      Int.tdiv_eq_ediv (by omega) (by omega)
    omega

theorem cmyk_channel_toRat (v k : PyQ) (hv : 0 < v.den) (hk : 0 < k.den) :
    PyQ.trunc (((PyQ.ofInt 255).mul ((PyQ.ofInt 1).sub (v.divNat 100))).mul
        ((PyQ.ofInt 1).sub (k.divNat 100))) =
      ratTrunc (255 * (1 - v.toRat / 100) * (1 - k.toRat / 100)) := by
  rw [PyQ.trunc_toRat _ (by
    simp only [PyQ.mul, PyQ.sub, PyQ.divNat, PyQ.ofInt]
    exact Nat.mul_pos (by omega) (by omega))]
  congr 1
  simp only [PyQ.toRat, PyQ.mul, PyQ.sub, PyQ.divNat, PyQ.ofInt]
  have hv' : ((v.den : ℚ)) ≠ 0 := by
    exact_mod_cast Nat.pos_iff_ne_zero.mp hv
  have hk' : ((k.den : ℚ)) ≠ 0 := by
    exact_mod_cast Nat.pos_iff_ne_zero.mp hk
  push_cast
  field_simp

theorem rgbFromVals_length_ne (vals : List (List Char)) (h : vals.length ≠ 3) :
    rgbFromVals vals = none := by
  match vals with
  | [] => rfl
  | [_] => rfl
  | [_, _] => rfl
  | [_, _, _] => exact absurd rfl h
  | _ :: _ :: _ :: _ :: _ => rfl

/-- C3 (code bug): an input of four comma-separated float literals with no
`cmyk` prefix is captured by the bare-RGB branch (a comma and no `cmyk`
prefix), whose three-token check fails, so `parse_color_input` returns
`none`; in particular `"0,100,100,0"` is rejected even though the intended
conversion gives `(255, 0, 0)`, contradicting the function's own docstring
(final.py line 273). -/
theorem C3_bare_cmyk_rejected :
    (∀ s : List Char,
      pyStartsWith ['#'] (pyNormalize s) = false →
      ¬ ((pyNormalize s).length = 6 ∧ ∀ x ∈ pyNormalize s, isHexLowerChar x = true) →
      pyStartsWith ['r', 'g', 'b', '('] (pyNormalize s) = false →
      (',' ∈ pyNormalize s) →
      pyStartsWith ['c', 'm', 'y', 'k'] (pyNormalize s) = false →
      (splitOnComma (pyNormalize s)).length ≠ 3 →
      parse_color_input s = none) ∧
    parse_color_input ['0', ',', '1', '0', '0', ',', '1', '0', '0', ',', '0'] = none ∧
    cmyk_to_rgb ⟨0, 1⟩ ⟨100, 1⟩ ⟨100, 1⟩ ⟨0, 1⟩ = (255, 0, 0) := by
  refine ⟨?_, by decide, by decide⟩
  intro s h1 h2 h3 h4 h5 h6
  simp only [parse_color_input]
  rw [if_neg, if_neg, if_pos]
  · exact rgbFromVals_length_ne _ h6
  · exact ⟨h4, by rw [h5]; exact Bool.false_ne_true⟩
  · rintro ⟨h, _⟩
    rw [h3] at h
    exact Bool.false_ne_true h
  · rintro (h | hh)
    · rw [h1] at h
      exact Bool.false_ne_true h
    · exact h2 hh

/-- Witness for the universally quantified part of C3 at the bare four-token
input `1,2,3,4`. -/
theorem C3_bare_cmyk_rejected_witness :
    parse_color_input ['1', ',', '2', ',', '3', ',', '4'] = none :=
  C3_bare_cmyk_rejected.1 ['1', ',', '2', ',', '3', ',', '4'] (by decide) (by decide)
    (by decide) (by decide) (by decide) (by decide)

theorem length_dropWhile_le_self (p : Char → Bool) (l : List Char) :
    (l.dropWhile p).length ≤ l.length := by
  induction l with
  | nil => simp
  | cons c rest ih =>
    rw [List.dropWhile_cons]
    split
    · exact Nat.le_succ_of_le ih
    · simp

/-- C7 (amended): for every input whose normalised form starts with `#`, the
parser delegates to `hex_to_rgb`, which decodes the three 2-character slices
at positions 0-6 after stripping leading `#` and ignores any trailing
characters; it returns invalid (never raising) exactly when one of the
slices fails to parse as a base-16 integer — so 3- and 4-digit inputs are
invalid, while 5-digit inputs decode their last digit as a one-digit byte
and 7-or-more-digit inputs decode the first six digits and ignore the
rest. -/
theorem C7_hash_branch (s : List Char)
    (h : pyStartsWith ['#'] (pyNormalize s) = true) :
    parse_color_input s = hex_to_rgb (pyNormalize s) ∧
    ((pyNormalize s).length ≤ 4 → parse_color_input s = none) ∧
    parse_color_input ['#', '1', 'a', '2'] = none ∧
    parse_color_input ['#', '1', 'a', '2', 'b'] = none ∧
    parse_color_input ['#', '1', 'a', '2', 'b', '3'] = some (26, 43, 3) ∧
    parse_color_input ['#', '1', 'a', '2', 'b', '3', 'c'] = some (26, 43, 60) := by
  have hmain : parse_color_input s = hex_to_rgb (pyNormalize s) := by
    simp only [parse_color_input]
    rw [if_pos (Or.inl h)]
  refine ⟨hmain, ?_, by decide, by decide, by decide, by decide⟩
  intro hlen
  rw [hmain]
  obtain ⟨rest, hrest⟩ : ∃ rest, pyNormalize s = '#' :: rest := by
    cases hT : pyNormalize s with
    | nil =>
      rw [hT] at h
      exact absurd h (by decide)
    | cons x xs =>
      rw [hT] at h
      simp only [pyStartsWith, Bool.and_eq_true, beq_iff_eq] at h
      exact ⟨xs, by rw [h.1]⟩
  have hh : (pyNormalize s).dropWhile (fun c => c = '#') =
      rest.dropWhile (fun c => c = '#') := by
    rw [hrest]
    rw [List.dropWhile_cons_of_pos (by decide)]
  have hrl : rest.length ≤ 3 := by
    rw [hrest] at hlen
    simpa using hlen
  have hlen2 : (rest.dropWhile (fun c => c = '#')).length ≤ 3 :=
    le_trans (length_dropWhile_le_self _ rest) hrl
  have hdrop : ((pyNormalize s).dropWhile (fun c => c = '#')).drop 4 = [] := by
    rw [hh]
    exact List.drop_eq_nil_of_le (by omega)
  simp only [hex_to_rgb]
  rw [hdrop]
  cases pyIntHex (((pyNormalize s).dropWhile (fun c => c = '#')).take 2) with
  | none => rfl
  | some r =>
    cases pyIntHex ((((pyNormalize s).dropWhile (fun c => c = '#')).drop 2).take 2) with
    | none => rfl
    | some g => rfl

/-- Witness for C7 at the concrete 3-character input `#z12`. -/
theorem C7_hash_branch_witness : parse_color_input ['#', 'z', '1', '2'] = none :=
  (C7_hash_branch ['#', 'z', '1', '2'] (by decide)).2.1 (by decide)

/-- C7 counterexample: the claim says a `#` followed by 8 hexadecimal digits
is rejected, but the code decodes the first six digits and returns a
colour. -/
theorem C7_counterexample :
    parse_color_input ['#', '1', 'a', '2', 'b', '3', 'c', '4', 'd'] = some (26, 43, 60) ∧
    ¬ parse_color_input ['#', '1', 'a', '2', 'b', '3', 'c', '4', 'd'] = none := by
  exact ⟨by decide, by decide⟩

/-- C8: every `cmyk(c,m,y,k)`-wrapped input whose four tokens parse as floats
in `[0, 100]` is parsed to `cmyk_to_rgb c m y k`, and that conversion equals
`int(255 * (1 - c/100) * (1 - k/100))` per channel with truncation toward
zero, read over exact rationals; in particular `cmyk(0,0,0,0)` parses to
`(255, 255, 255)` and `cmyk(0,0,0,100)` to `(0, 0, 0)`. -/
theorem C8_cmyk_wrapped_parse (ta tb tc td : List Char) (c m y k : PyQ)
    (hla : pyLower ta = ta) (hlb : pyLower tb = tb) (hlc : pyLower tc = tc)
    (hld : pyLower td = td)
    (hca : ',' ∉ ta) (hcb : ',' ∉ tb) (hcc : ',' ∉ tc) (hcd : ',' ∉ td)
    (hfa : pyFloat (pyStrip ta) = some c) (hfb : pyFloat (pyStrip tb) = some m)
    (hfc : pyFloat (pyStrip tc) = some y) (hfd : pyFloat (pyStrip td) = some k)
    (hdc : 0 < c.den) (hdm : 0 < m.den) (hdy : 0 < y.den) (hdk : 0 < k.den)
    (h0c : PyQ.le (PyQ.ofInt 0) c) (h1c : PyQ.le c (PyQ.ofInt 100))
    (h0m : PyQ.le (PyQ.ofInt 0) m) (h1m : PyQ.le m (PyQ.ofInt 100))
    (h0y : PyQ.le (PyQ.ofInt 0) y) (h1y : PyQ.le y (PyQ.ofInt 100))
    (h0k : PyQ.le (PyQ.ofInt 0) k) (h1k : PyQ.le k (PyQ.ofInt 100)) :
    parse_color_input (mkCmyk ta tb tc td) = some (cmyk_to_rgb c m y k) ∧
    cmyk_to_rgb c m y k =
      (ratTrunc (255 * (1 - c.toRat / 100) * (1 - k.toRat / 100)),
       ratTrunc (255 * (1 - m.toRat / 100) * (1 - k.toRat / 100)),
       ratTrunc (255 * (1 - y.toRat / 100) * (1 - k.toRat / 100))) ∧
    parse_color_input (mkCmyk ['0'] ['0'] ['0'] ['0']) = some (255, 255, 255) ∧
    parse_color_input (mkCmyk ['0'] ['0'] ['0'] ['1', '0', '0']) = some (0, 0, 0) := by
  have hnorm : pyNormalize (mkCmyk ta tb tc td) = mkCmyk ta tb tc td := by
    rw [pyNormalize_mkCmyk, hla, hlb, hlc, hld]
  refine ⟨?_, ?_, by decide, by decide⟩
  · simp only [parse_color_input, hnorm]
    rw [if_neg, if_neg, if_neg, if_pos
      ⟨mkCmyk_starts_cmykOpen ta tb tc td, mkCmyk_ends_paren ta tb tc td⟩]
    · rw [mkCmyk_drop5, mkCmyk_body_dropLast, mkCmyk_split ta tb tc td hca hcb hcc hcd]
      simp only [cmykFromVals, hfa, hfb, hfc, hfd]
      rw [if_pos ⟨h0c, h1c, h0m, h1m, h0y, h1y, h0k, h1k⟩]
    · rintro ⟨_, hnp⟩
      exact hnp (mkCmyk_starts_cmyk ta tb tc td)
    · rintro ⟨h, _⟩
      rw [mkCmyk_not_rgb] at h
      exact Bool.false_ne_true h
    · rintro (h | ⟨_, hall⟩)
      · rw [mkCmyk_not_hash] at h
        exact Bool.false_ne_true h
      · exact absurd (hall '(' (mkCmyk_mem_paren ta tb tc td)) (by decide)
  · simp only [cmyk_to_rgb]
    rw [cmyk_channel_toRat c k hdc hdk, cmyk_channel_toRat m k hdm hdk,
      cmyk_channel_toRat y k hdy hdk]

/-- Witness for C8 at the concrete input `cmyk(0,0,0,100)`. -/
theorem C8_cmyk_wrapped_parse_witness :
    parse_color_input (mkCmyk ['0'] ['0'] ['0'] ['1', '0', '0']) =
      some (cmyk_to_rgb ⟨0, 1⟩ ⟨0, 1⟩ ⟨0, 1⟩ ⟨100, 1⟩) :=
  (C8_cmyk_wrapped_parse ['0'] ['0'] ['0'] ['1', '0', '0'] ⟨0, 1⟩ ⟨0, 1⟩ ⟨0, 1⟩ ⟨100, 1⟩
    (by decide) (by decide) (by decide) (by decide)
    (by decide) (by decide) (by decide) (by decide)
    (by decide) (by decide) (by decide) (by decide)
    (by decide) (by decide) (by decide) (by decide)
    (by decide) (by decide) (by decide) (by decide)
    (by decide) (by decide) (by decide) (by decide)).1

theorem bandHeight_le_height (h : Nat) : h * 20 / 100 ≤ h := by
  have h1 : h * 20 ≤ h * 100 := Nat.mul_le_mul_left h (by omega)
  have h2 : h * 20 / 100 ≤ h * 100 / 100 := Nat.div_le_div_right h1
  have h3 : h * 100 / 100 = h := Nat.mul_div_cancel h (by omega)
  omega

/-- C2 (amended): `add_info_band` keeps the dimensions; pixel rows above
`bandTop = (height - bandHeight) // 2` are unchanged; the band region holds
the band layer blended over a transparent background (the original content
is not behind the band); and each output row `y` in the region below the
band holds the input row `y - bandHeight`: the content from `bandTop`
downward is shifted down by the band height (the bottom `bandHeight` input
rows are lost), it is not left unchanged as claimed. -/
theorem C2_band_splice (image : Img) (bandPix : Nat → Nat → Pix) (x y : Nat) :
    (add_info_band image bandPix).width = image.width ∧
    (add_info_band image bandPix).height = image.height ∧
    (x < image.width → y < (image.height - image.height * 20 / 100) / 2 →
      (add_info_band image bandPix).pix x y = image.pix x y) ∧
    (x < image.width → (image.height - image.height * 20 / 100) / 2 ≤ y →
      y < (image.height - image.height * 20 / 100) / 2 + image.height * 20 / 100 →
      (add_info_band image bandPix).pix x y =
        blendPix (0, 0, 0, 0)
          (bandPix x (y - (image.height - image.height * 20 / 100) / 2))) ∧
    (x < image.width →
      (image.height - image.height * 20 / 100) / 2 + image.height * 20 / 100 ≤ y →
      y < image.height →
      (add_info_band image bandPix).pix x y =
        image.pix x (y - image.height * 20 / 100)) := by
  have hbh : image.height * 20 / 100 ≤ image.height := bandHeight_le_height image.height
  have hpos : (image.height - image.height * 20 / 100) / 2 ≤
      image.height - image.height * 20 / 100 := Nat.div_le_self _ _
  refine ⟨rfl, rfl, ?_, ?_, ?_⟩
  · intro hx hy
    simp only [add_info_band, pasteAt, pasteMaskAt, cropBox, newImg]
    rw [if_neg (by omega), if_neg (by omega),
      if_pos (by omega)]
    have e1 : (((x : Nat) : Int) - 0).toNat + 0 = x := by omega
    have e2 : (((y : Nat) : Int) - 0).toNat + 0 = y := by omega
    rw [e1, e2]
  · intro hx hy1 hy2
    simp only [add_info_band, pasteAt, pasteMaskAt, cropBox, newImg]
    rw [if_neg (by omega), if_pos (by omega),
      if_neg (by omega)]
    have e1 : (((x : Nat) : Int) - 0).toNat = x := by omega
    have e2 : (((y : Nat) : Int) -
        (((image.height - image.height * 20 / 100) / 2 : Nat) : Int)).toNat =
        y - (image.height - image.height * 20 / 100) / 2 := by omega
    rw [e1, e2]
  · intro hx hy1 hy2
    simp only [add_info_band, pasteAt, pasteMaskAt, cropBox, newImg]
    rw [if_pos (by omega)]
    have e1 : (((x : Nat) : Int) - 0).toNat + 0 = x := by omega
    have e2 : (((y : Nat) : Int) -
        ((((image.height - image.height * 20 / 100) / 2 : Nat) : Int) +
          ((image.height * 20 / 100 : Nat) : Int))).toNat +
        (image.height - image.height * 20 / 100) / 2 =
        y - image.height * 20 / 100 := by omega
    rw [e1, e2]

/-- C2 counterexample: rows below the band are not unchanged.  On a 1-by-10
image with pairwise distinct rows and band height 2, band top 4, output
row 6 holds input row 4, not input row 6. -/
theorem C2_counterexample :
    (add_info_band bandTestImg bandTestPix).pix 0 6 = bandTestImg.pix 0 4 ∧
    ¬ (add_info_band bandTestImg bandTestPix).pix 0 6 = bandTestImg.pix 0 6 :=
  ⟨by decide, by decide⟩

/-- Witness for C2 at the 1-by-10 test image, output row 7. -/
theorem C2_band_splice_witness :
    (add_info_band bandTestImg bandTestPix).pix 0 7 = bandTestImg.pix 0 5 :=
  (C2_band_splice bandTestImg bandTestPix 0 7).2.2.2.2 (by decide) (by decide) (by decide)

theorem getD_mem_of_lt (l : List Img) (i : Nat) (d : Img) (h : i < l.length) :
    l.getD i d ∈ l := by
  induction l generalizing i with
  | nil => simp at h
  | cons a rest ih =>
    cases i with
    | zero => simp [List.getD_cons_zero]
    | succ i =>
      rw [List.getD_cons_succ]
      exact List.mem_cons_of_mem _ (ih i (by simpa using h))

theorem padPool_zero (rand : Nat → Nat) (pool : List Img) :
    padPool rand 0 pool = Except.ok pool := rfl

theorem padPool_ok_of_ne_nil (rand : Nat → Nat) (n : Nat) (pool : List Img) (h : pool ≠ []) :
    ∃ out, padPool rand n pool = Except.ok out := by
  induction n generalizing pool with
  | zero => exact ⟨pool, rfl⟩
  | succ n ih =>
    simp only [padPool]
    rw [if_neg (by simp [List.isEmpty_iff]; exact h)]
    exact ih _ (by simp)

theorem padPool_length (rand : Nat → Nat) (n : Nat) (pool out : List Img)
    (h : padPool rand n pool = Except.ok out) : out.length = pool.length + n := by
  induction n generalizing pool with
  | zero =>
    simp only [padPool, Except.ok.injEq] at h
    rw [← h]
    omega
  | succ n ih =>
    simp only [padPool] at h
    split at h
    · exact absurd h (by simp)
    · have := ih _ h
      simp only [List.length_append, List.length_singleton] at this
      omega

theorem padPool_mem (rand : Nat → Nat) (n : Nat) (pool out : List Img)
    (h : padPool rand n pool = Except.ok out) : ∀ img ∈ out, img ∈ pool := by
  induction n generalizing pool with
  | zero =>
    intro img him
    simp only [padPool, Except.ok.injEq] at h
    rw [← h] at him
    exact him
  | succ n ih =>
    intro img him
    simp only [padPool] at h
    split at h
    · exact absurd h (by simp)
    · rename_i hne
      have hlen : 0 < pool.length := by
        simp only [List.isEmpty_iff] at hne
        exact List.length_pos.mpr (by simpa using hne)
      have hmem := ih _ h img him
      rcases List.mem_append.mp hmem with h1 | h2
      · exact h1
      · have h3 : img = pool.getD (rand pool.length % pool.length) defaultImg := by
          simpa using h2
        rw [h3]
        exact getD_mem_of_lt pool _ defaultImg (Nat.mod_lt _ hlen)

theorem padPool_extends (rand : Nat → Nat) (n : Nat) (pool out : List Img)
    (h : padPool rand n pool = Except.ok out) : ∃ ext, out = pool ++ ext := by
  induction n generalizing pool with
  | zero =>
    simp only [padPool, Except.ok.injEq] at h
    exact ⟨[], by rw [← h]; simp⟩
  | succ n ih =>
    simp only [padPool] at h
    split at h
    · exact absurd h (by simp)
    · obtain ⟨ext, hext⟩ := ih _ h
      exact ⟨pool.getD (rand pool.length % pool.length) defaultImg :: ext,
        by rw [hext]; simp⟩

theorem loadImages_length_of_all (decode : List Char → Option Img)
    (paths : List (List Char)) (w h : Int)
    (hall : ∀ p ∈ paths, (decode p).isSome) :
    (loadImages decode paths w h).length = paths.length := by
  induction paths with
  | nil => rfl
  | cons p rest ih =>
    have hp := hall p (List.mem_cons_self _ _)
    cases hd : decode p with
    | none => rw [hd] at hp; exact absurd hp (by simp)
    | some img =>
      simp only [loadImages, List.filterMap_cons, hd, Option.map_some', List.length_cons]
      have := ih (fun q hq => hall q (List.mem_cons_of_mem _ hq))
      simp only [loadImages] at this
      rw [this]

theorem placeFrom_length (columns : Nat) (w h : Int) (idx : Nat) (pool : List Img) :
    (placeFrom columns w h idx pool).length = pool.length := by
  induction pool generalizing idx with
  | nil => rfl
  | cons img rest ih => simp [placeFrom, ih]

theorem placeFrom_getD (columns : Nat) (w h : Int) (pool : List Img) (idx i : Nat)
    (hi : i < pool.length) :
    (placeFrom columns w h idx pool).getD i (defaultImg, 0, 0) =
      (pool.getD i defaultImg,
       border_spacing + (((idx + i) % columns : Nat) : Int) * (w + image_spacing) +
         Int.fdiv (w - ((pool.getD i defaultImg).width : Int)) 2,
       border_spacing + (((idx + i) / columns : Nat) : Int) * (h + image_spacing) +
         Int.fdiv (h - ((pool.getD i defaultImg).height : Int)) 2) := by
  induction pool generalizing idx i with
  | nil => simp at hi
  | cons img rest ih =>
    cases i with
    | zero => simp [placeFrom, List.getD_cons_zero]
    | succ i =>
      simp only [placeFrom, List.getD_cons_succ]
      have hrec := ih (idx + 1) i (by simpa using hi)
      have e : idx + 1 + i = idx + (i + 1) := by omega
      rw [e] at hrec
      exact hrec

/-- C6: on the empty path sequence `merge_images` reports the classified
empty-input condition (the guarded early return at final.py lines 549-551):
it returns before computing anything, no output record (and hence no
`final_output.png` write) is produced, and no exception is raised; the
caller merely logs and moves to the next folder, so the failure is
non-fatal. -/
theorem C6_empty_input (decode : List Char → Option Img) (rand : Nat → Nat)
    (bandDraw : Nat → Int × Int × Int → Nat → Nat → Pix) (image_size : Nat)
    (background watermark : Img) (output_folder : List Char)
    (theme_color : Option (Int × Int × Int)) (include_band : Bool) :
    merge_images decode rand bandDraw [] image_size background watermark output_folder
      theme_color include_band = Except.error PyErr.emptyInput := rfl

/-- C4 (code bug): when every path of a non-empty list fails to decode, the
loaded pool is empty, `rows * columns - 0 > 0` iterations of the
duplicate-fill loop are requested, and `random.choice` on the empty pool
raises an unclassified `IndexError` that escapes `merge_images`; there is no
distinct `AllLoadsFailed` classification in the code. -/
theorem C4_all_loads_failed :
    merge_images decodeNone randZero bandDrawZero
      [['b', 'a', 'd', '.', 'p', 'n', 'g']] 2000 blankImg blankImg []
      none true = Except.error PyErr.indexError := rfl

/-- C9: when every path decodes successfully and the image count exactly
fills rows × columns, the duplicate-fill loop runs zero iterations, so the
result of `merge_images` does not depend on the random oracle: two runs with
identical inputs and different random streams produce identical outputs. -/
theorem C9_deterministic (decode : List Char → Option Img)
    (bandDraw : Nat → Int × Int × Int → Nat → Nat → Pix) (r1 r2 : Nat → Nat)
    (input_paths : List (List Char)) (image_size : Nat) (background watermark : Img)
    (output_folder : List Char) (theme_color : Option (Int × Int × Int))
    (include_band : Bool)
    (hall : ∀ p ∈ input_paths, (decode p).isSome)
    (hfill : input_paths.length =
      gridRows input_paths.length * gridColumns input_paths.length) :
    merge_images decode r1 bandDraw input_paths image_size background watermark
        output_folder theme_color include_band =
      merge_images decode r2 bandDraw input_paths image_size background watermark
        output_folder theme_color include_band := by
  by_cases hemp : input_paths.isEmpty
  · simp [merge_images, hemp]
  · have hlen : (loadImages decode input_paths (imageWidthOf input_paths.length image_size)
        (imageHeightOf input_paths.length image_size include_band)).length =
        input_paths.length :=
      loadImages_length_of_all decode input_paths _ _ hall
    have hzero : gridRows input_paths.length * gridColumns input_paths.length -
        (loadImages decode input_paths (imageWidthOf input_paths.length image_size)
          (imageHeightOf input_paths.length image_size include_band)).length = 0 := by
      omega
    simp only [merge_images, hzero, padPool_zero]

/-- Witness for C9 with two paths that exactly fill the 2-by-1 grid and two
different random oracles. -/
theorem C9_deterministic_witness :
    merge_images decodeAll randZero bandDrawZero [['a'], ['b']] 100 blankImg blankImg []
        none false =
      merge_images decodeAll randShift bandDrawZero [['a'], ['b']] 100 blankImg blankImg []
        none false :=
  C9_deterministic decodeAll bandDrawZero randZero randShift [['a'], ['b']] 100 blankImg
    blankImg [] none false (fun _ _ => rfl) (by decide)

/-- C5: with at least one successfully loaded image and fewer loaded images
than rows × columns, `merge_images` does not raise: the duplicate-fill step
appends copies of randomly chosen already-loaded images until exactly
rows × columns are present (the pool extends the loaded list and every pool
element is a loaded image), and the placement loop populates all
rows × columns cells in row-major order (cell `i` at column `i % columns`
and row `i / columns`, at the cell origin plus the centring offset). -/
theorem C5_padding (decode : List Char → Option Img) (rand : Nat → Nat)
    (bandDraw : Nat → Int × Int × Int → Nat → Nat → Pix)
    (input_paths : List (List Char)) (image_size : Nat) (background watermark : Img)
    (output_folder : List Char) (theme_color : Option (Int × Int × Int))
    (include_band : Bool)
    (hlt : (loadImages decode input_paths (imageWidthOf input_paths.length image_size)
        (imageHeightOf input_paths.length image_size include_band)).length <
      gridRows input_paths.length * gridColumns input_paths.length)
    (hpos : 0 < (loadImages decode input_paths (imageWidthOf input_paths.length image_size)
        (imageHeightOf input_paths.length image_size include_band)).length) :
    ∃ o, merge_images decode rand bandDraw input_paths image_size background watermark
        output_folder theme_color include_band = Except.ok o ∧
      o.pool.length = gridRows input_paths.length * gridColumns input_paths.length ∧
      (∀ img ∈ o.pool,
        img ∈ loadImages decode input_paths (imageWidthOf input_paths.length image_size)
          (imageHeightOf input_paths.length image_size include_band)) ∧
      (∃ ext, o.pool =
        loadImages decode input_paths (imageWidthOf input_paths.length image_size)
          (imageHeightOf input_paths.length image_size include_band) ++ ext) ∧
      o.placements.length =
        gridRows input_paths.length * gridColumns input_paths.length ∧
      (∀ i, i < o.pool.length →
        o.placements.getD i (defaultImg, 0, 0) =
          (o.pool.getD i defaultImg,
           border_spacing + ((i % gridColumns input_paths.length : Nat) : Int) *
               (imageWidthOf input_paths.length image_size + image_spacing) +
             Int.fdiv (imageWidthOf input_paths.length image_size -
               ((o.pool.getD i defaultImg).width : Int)) 2,
           border_spacing + ((i / gridColumns input_paths.length : Nat) : Int) *
               (imageHeightOf input_paths.length image_size include_band + image_spacing) +
             Int.fdiv (imageHeightOf input_paths.length image_size include_band -
               ((o.pool.getD i defaultImg).height : Int)) 2)) := by
  have hne : input_paths ≠ [] := by
    intro hcon
    rw [hcon] at hpos
    simp [loadImages] at hpos
  have hpoolne : loadImages decode input_paths (imageWidthOf input_paths.length image_size)
      (imageHeightOf input_paths.length image_size include_band) ≠ [] :=
    List.length_pos.mp hpos
  obtain ⟨out, hout⟩ := padPool_ok_of_ne_nil rand
    (gridRows input_paths.length * gridColumns input_paths.length -
      (loadImages decode input_paths (imageWidthOf input_paths.length image_size)
        (imageHeightOf input_paths.length image_size include_band)).length)
    _ hpoolne
  have houtlen : out.length =
      gridRows input_paths.length * gridColumns input_paths.length := by
    have := padPool_length _ _ _ _ hout
    omega
  obtain ⟨o, hm, hpool, hplace⟩ : ∃ o,
      merge_images decode rand bandDraw input_paths image_size background watermark
        output_folder theme_color include_band = Except.ok o ∧
      o.pool = out ∧
      o.placements = placeFrom (gridColumns input_paths.length)
        (imageWidthOf input_paths.length image_size)
        (imageHeightOf input_paths.length image_size include_band) 0 out := by
    simp only [merge_images]
    rw [if_neg (by simp [List.isEmpty_iff]; exact hne), hout]
    exact ⟨_, rfl, rfl, rfl⟩
  refine ⟨o, hm, ?_, ?_, ?_, ?_, ?_⟩
  · rw [hpool]
    exact houtlen
  · rw [hpool]
    exact padPool_mem _ _ _ _ hout
  · rw [hpool]
    exact padPool_extends _ _ _ _ hout
  · rw [hplace, placeFrom_length]
    exact houtlen
  · intro i hi
    rw [hpool] at hi
    rw [hplace, hpool]
    have := placeFrom_getD (gridColumns input_paths.length)
      (imageWidthOf input_paths.length image_size)
      (imageHeightOf input_paths.length image_size include_band) out 0 i hi
    simpa using this

/-- Witness for C5: one path, a 2-cell grid, all decodes succeeding. -/
theorem C5_padding_witness :
    ∃ o, merge_images decodeAll randZero bandDrawZero [['a']] 100 blankImg blankImg []
        none false = Except.ok o ∧ o.pool.length = 2 := by
  obtain ⟨o, h1, h2, -⟩ := C5_padding decodeAll randZero bandDrawZero [['a']] 100 blankImg
    blankImg [] none false (by decide) (by decide)
  exact ⟨o, h1, h2⟩

/-- C10: with the band flag set but the band colour absent, `merge_images`
still reserves the band area when computing the cell height — the placements
are identical to a run with any concrete colour, and the band-aware cell
height never exceeds the height computed without a band — yet the final
image is assembled with no band step at all: background under the grid
canvas, watermark on top, and nothing else. -/
theorem C10_band_reserved_not_drawn (decode : List Char → Option Img) (rand : Nat → Nat)
    (bandDraw : Nat → Int × Int × Int → Nat → Nat → Pix)
    (input_paths : List (List Char)) (image_size : Nat) (background watermark : Img)
    (output_folder : List Char) (col : Int × Int × Int)
    (hpos : 0 < (loadImages decode input_paths (imageWidthOf input_paths.length image_size)
        (imageHeightOf input_paths.length image_size true)).length) :
    (merge_images decode rand bandDraw input_paths image_size background watermark
        output_folder none true).map (fun o => o.placements) =
      (merge_images decode rand bandDraw input_paths image_size background watermark
        output_folder (some col) true).map (fun o => o.placements) ∧
    imageHeightOf input_paths.length image_size true ≤
      imageHeightNoBand input_paths.length image_size ∧
    ∃ o, merge_images decode rand bandDraw input_paths image_size background watermark
        output_folder none true = Except.ok o ∧
      o.image = alphaComposite
        (alphaComposite (resizeImg background image_size image_size)
          (gridCanvas image_size o.placements))
        (resizeImg watermark image_size image_size) := by
  have hne : input_paths ≠ [] := by
    intro hcon
    rw [hcon] at hpos
    simp [loadImages] at hpos
  have hif : ¬ input_paths.isEmpty = true := by
    simp [List.isEmpty_iff]
    exact hne
  have hpoolne : loadImages decode input_paths (imageWidthOf input_paths.length image_size)
      (imageHeightOf input_paths.length image_size true) ≠ [] :=
    List.length_pos.mp hpos
  obtain ⟨out, hout⟩ := padPool_ok_of_ne_nil rand
    (gridRows input_paths.length * gridColumns input_paths.length -
      (loadImages decode input_paths (imageWidthOf input_paths.length image_size)
        (imageHeightOf input_paths.length image_size true)).length)
    _ hpoolne
  refine ⟨?_, ?_, ?_⟩
  · simp only [merge_images]
    rw [if_neg hif, if_neg hif, hout]
    rfl
  · simp only [imageHeightOf, if_pos rfl]
    exact min_le_left _ _
  · obtain ⟨o, hm, himg⟩ : ∃ o,
        merge_images decode rand bandDraw input_paths image_size background watermark
          output_folder none true = Except.ok o ∧
        o.image = alphaComposite
          (alphaComposite (resizeImg background image_size image_size)
            (gridCanvas image_size o.placements))
          (resizeImg watermark image_size image_size) := by
      simp only [merge_images]
      rw [if_neg hif, hout]
      exact ⟨_, rfl, rfl⟩
    exact ⟨o, hm, himg⟩

/-- Witness for C10 at a concrete configuration. -/
theorem C10_band_reserved_not_drawn_witness :
    imageHeightOf 1 100 true ≤ imageHeightNoBand 1 100 :=
  (C10_band_reserved_not_drawn decodeAll randZero bandDrawZero [['a']] 100 blankImg blankImg
    [] (0, 0, 0) (by decide)).2.1
